import Mathlib

/-!
# Verification of the transaction-input layer of bronzeage-node

This development embeds `lib/primitives/input.js` (the transaction-input
representation and resolution layer) in Lean 4 and proves the documented
properties of its classification, redeem-script resolution, sequence-flag,
binary-codec and JSON-codec operations.

The `Input` type and all of its operations are translated directly from the
source file.  The collaborator types it consumes — `Outpoint`, `Script`,
`Witness`, `Coin`, the script-type constant table, the network registry and
the byte writer/reader utilities — are not part of the analysed sources, so
they are modelled from the specification's description of their contracts;
each such definition carries a doc comment saying so.

Bytes are modelled as natural numbers (well-formedness predicates bound them
below 256 where it matters), buffers as `List Nat`, and fallible decoding as
`Option`.
-/

/-! ## Little-endian byte codec

Modelled from the spec: the writer/reader utilities (`StaticWriter`,
`BufferReader`) serialize unsigned integers as fixed-width little-endian
byte sequences (§4.4 wire layout). -/

/-- `leBytes k n` is the `k`-byte little-endian rendering of `n`
(low byte first), as written by `writeU32`-style writer methods. -/
def leBytes : Nat → Nat → List Nat
  | 0, _ => []
  | k + 1, n => n % 256 :: leBytes k (n / 256)

/-- `decodeLE bs` reads a little-endian unsigned integer from the whole of
`bs`, as done by `readU32`-style reader methods. -/
def decodeLE : List Nat → Nat
  | [] => 0
  | b :: bs => b + 256 * decodeLE bs

/-- `readBytes n bs` consumes exactly `n` bytes from the front of `bs`,
failing (like `BufferReader` on a truncated buffer) when fewer remain. -/
def readBytes (n : Nat) (bs : List Nat) : Option (List Nat × List Nat) :=
  if n ≤ bs.length then some (bs.take n, bs.drop n) else none

/-! ## Variable-length integer codec

Modelled from the spec: the script payload is "length-prefixed
(variable-width integer prefix)" (§4.4); the prefix is the standard
Bitcoin-style varint used by `writeVarBytes`/`readVarBytes`. -/

/-- Number of bytes of the variable-width integer prefix for value `n`. -/
def varIntSize (n : Nat) : Nat :=
  if n < 0xfd then 1
  else if n ≤ 0xffff then 3
  else if n ≤ 0xffffffff then 5
  else 9

/-- Canonical variable-width integer encoding of `n`. -/
def writeVarInt (n : Nat) : List Nat :=
  if n < 0xfd then [n]
  else if n ≤ 0xffff then 0xfd :: leBytes 2 n
  else if n ≤ 0xffffffff then 0xfe :: leBytes 4 n
  else 0xff :: leBytes 8 n

/-- Read a variable-width integer from the front of `bs`. -/
def readVarInt (bs : List Nat) : Option (Nat × List Nat) :=
  match bs with
  | [] => none
  | b :: rest =>
    if b < 0xfd then some (b, rest)
    else if b = 0xfd then
      (readBytes 2 rest).map (fun p => (decodeLE p.1, p.2))
    else if b = 0xfe then
      (readBytes 4 rest).map (fun p => (decodeLE p.1, p.2))
    else
      (readBytes 8 rest).map (fun p => (decodeLE p.1, p.2))

/-- `writeVarBytes b` is the length-prefixed rendering of the byte string
`b`, as written by `bw.writeVarBytes`. -/
def writeVarBytes (b : List Nat) : List Nat :=
  writeVarInt b.length ++ b

/-- `readVarBytes bs` reads a length prefix and then that many payload
bytes, as done by `br.readVarBytes`. -/
def readVarBytes (bs : List Nat) : Option (List Nat × List Nat) :=
  match readVarInt bs with
  | some (n, rest) => readBytes n rest
  | none => none

/-! ## Script-type tags

Modelled from the spec: `ScriptTypeTag` is a "closed enumeration of
recognized spending patterns" and a total lookup table maps each tag to its
canonical name (§3), consulted by `input.js` as
`constants.scriptTypesByVal[type].toLowerCase()`. -/

/-- The closed enumeration of recognized spending patterns (§3). -/
inductive ScriptType where
  | nonstandard
  | pubkey
  | pubkeyhash
  | scripthash
  | multisig
  | witnessscripthash
  | witnesspubkeyhash
deriving DecidableEq, Repr

/-- Modelled from the spec: the total canonical-name table
`constants.scriptTypesByVal`; `input.js` lowercases its entries. -/
def scriptTypesByVal : ScriptType → String
  | .nonstandard => "NONSTANDARD"
  | .pubkey => "PUBKEY"
  | .pubkeyhash => "PUBKEYHASH"
  | .scripthash => "SCRIPTHASH"
  | .multisig => "MULTISIG"
  | .witnessscripthash => "WITNESSSCRIPTHASH"
  | .witnesspubkeyhash => "WITNESSPUBKEYHASH"

/-! ## Outpoint

Modelled from the spec: `Outpoint` is `{ hash: 32-byte identifier, index:
unsigned 32-bit }`, with the null sentinel "hash is all-zero AND index ==
0xffffffff" (§3), serialized as 32 hash bytes then a 4-byte little-endian
index (§4.4). -/

structure Outpoint where
  hash : List Nat
  index : Nat
deriving DecidableEq, Repr

/-- Modelled from the spec: the null-outpoint sentinel check (§3, §4.1). -/
def Outpoint.isNull (o : Outpoint) : Bool :=
  o.hash == List.replicate 32 0 && o.index == 0xffffffff

/-- Modelled from the spec: `outpoint.toWriter` writes the 32 hash bytes
followed by the 4-byte little-endian index (§4.4). -/
def Outpoint.toWriterBytes (o : Outpoint) : List Nat :=
  o.hash ++ leBytes 4 o.index

/-- Modelled from the spec: `outpoint.fromReader` reads 32 hash bytes then a
4-byte little-endian index, in that fixed order (§4.4). -/
def Outpoint.fromReader (bs : List Nat) : Option (Outpoint × List Nat) :=
  match readBytes 32 bs with
  | some (h, r1) =>
    match readBytes 4 r1 with
    | some (ib, r2) => some (⟨h, decodeLE ib⟩, r2)
    | none => none
  | none => none

/-! ## Script

Modelled from the spec: `Script` is an "opaque byte-compiled program" (§3)
exposing the capability contract of §4.2; it is embedded here as its raw
byte string, with the §4.2 structural predicates realized over that byte
string. -/

structure Script where
  code : List Nat
deriving DecidableEq, Repr

/-- `script.toRaw()`: the raw byte string of the script. -/
def Script.toRaw (s : Script) : List Nat :=
  s.code

/-- `Script.fromRaw`: rebuild a script from its raw byte string. -/
def Script.fromRaw (bs : List Nat) : Script :=
  ⟨bs⟩

/-- `script.getVarSize()`: size of the script's length prefix plus payload,
the variable part of the input wire encoding (§4.4). -/
def Script.getVarSize (s : Script) : Nat :=
  varIntSize s.code.length + s.code.length

/-- Modelled from the spec: structural predicate for the canonical
script-hash output pattern (`OP_HASH160 <20-byte push> OP_EQUAL`, §4.2). -/
def Script.isScripthash (s : Script) : Bool :=
  match s.code with
  | 0xa9 :: 0x14 :: rest => rest.length == 21 && rest.getLast? == some 0x87
  | _ => false

/-- Modelled from the spec: structural predicate for the canonical
witness-script-hash output pattern (version-0 marker followed by one
32-byte push, §4.2). -/
def Script.isWitnessScripthash (s : Script) : Bool :=
  match s.code with
  | 0x00 :: 0x20 :: rest => rest.length == 32
  | _ => false

/-- Fuel-indexed parser splitting a script into its sequence of direct push
items (opcode `b ≤ 75` pushes the next `b` bytes); `none` on any
non-push opcode or truncated push.  The fuel is the remaining byte count,
which each step strictly decreases. -/
def parsePushesAux : Nat → List Nat → Option (List (List Nat))
  | _, [] => some []
  | 0, _ :: _ => none
  | fuel + 1, b :: rest =>
    if b ≤ 75 ∧ b ≤ rest.length then
      match parsePushesAux fuel (rest.drop b) with
      | some ps => some (rest.take b :: ps)
      | none => none
    else none

/-- Modelled from the spec: the push-only decomposition of an input script,
used to locate "the last push item" (§4.2). -/
def parsePushes (l : List Nat) : Option (List (List Nat)) :=
  parsePushesAux l.length l

/-- Modelled from the spec: `script.getRedeem()` extracts "the embedded
redeem script from a script-hash-style input (the last push item,
reinterpreted as a script), or null if the shape does not match" (§4.2). -/
def Script.getRedeem (s : Script) : Option Script :=
  match parsePushes s.code with
  | some ps => ps.getLast?.map Script.fromRaw
  | none => none

/-- Modelled from the spec: `script.isScripthashInput()` holds of the
script-hash spend shape, i.e. exactly when a last push item (the candidate
redeem script) can be extracted (§4.2). -/
def Script.isScripthashInput (s : Script) : Bool :=
  s.getRedeem.isSome

/-- Modelled from the spec: `script.getInputType()` classifies the spending
pattern from the opcode stream alone, deterministically and totally,
"returning a nonstandard tag rather than failing" on unrecognized shapes
(§4.2). -/
def Script.getInputType (s : Script) : ScriptType :=
  match parsePushes s.code with
  | none => .nonstandard
  | some [] => .nonstandard
  | some [_] => .pubkey
  | some [_, _] => .pubkeyhash
  | some (_ :: _ :: _ :: _) => .scripthash

/-- Modelled from the spec: output-script classification `script.getType()`
"for a script taken from a Coin" (§3). -/
def Script.getType (s : Script) : ScriptType :=
  if s.isScripthash then .scripthash
  else if s.isWitnessScripthash then .witnessscripthash
  else .nonstandard

/-! ## Address

Modelled from the spec: `Address` is a "derived value object" (§3); it is
abstracted here by the byte string that determines it, and `toBase58`
renders the network-specific textual form. -/

structure Address where
  hash : List Nat
deriving DecidableEq, Repr

/-! ## Network

Modelled from the spec: address encoding depends "on an externally supplied
network/chain-parameters value" (§9); `Network.get` resolves an absent
argument to the primary network. -/

inductive Network where
  | main
  | testnet
  | regtest
deriving DecidableEq, Repr

/-- Modelled from the spec: `Network.get(network)` — an absent argument
resolves to the primary (default) network. -/
def Network.get : Option Network → Network
  | none => .main
  | some n => n

/-- Modelled from the spec: the network-specific version byte prefixed to a
base58 address rendering. -/
def Network.prefixByte : Network → Nat
  | .main => 0x00
  | .testnet => 0x6f
  | .regtest => 0x3c

/-- Modelled from the spec: `address.toBase58(network)` renders "the
network-specific textual form" (§3); the rendering is injective in the
network prefix and the address bytes. -/
def Address.toBase58 (a : Address) (n : Network) : String :=
  toString n.prefixByte ++ ":" ++ toString a.hash

/-- Modelled from the spec: `script.getInputAddress()` derives the address
implied by the spending pattern when deterministically inferable, `null`
otherwise (§4.2). -/
def Script.getInputAddress (s : Script) : Option Address :=
  (Script.getRedeem s).map (fun r => ⟨r.code⟩)

/-! ## Witness

Modelled from the spec: `Witness` is an "ordered sequence of byte items"
exposing the same query surface as `Script` "interpreted over the witness
stack shape"; an empty item stack signals no witness data (§3, §4.2). -/

structure Witness where
  items : List (List Nat)
deriving DecidableEq, Repr

/-- Modelled from the spec: `witness.isScripthashInput()` — the witness
stack carries a script-hash-style spend when it is non-empty (its last item
is the candidate redeem script) (§4.2). -/
def Witness.isScripthashInput (w : Witness) : Bool :=
  !w.items.isEmpty

/-- Modelled from the spec: `witness.getRedeem()` reinterprets the last
stack item as the redeem script, `null` when the stack is empty (§4.2). -/
def Witness.getRedeem (w : Witness) : Option Script :=
  w.items.getLast?.map Script.fromRaw

/-- Modelled from the spec: `witness.getInputType()` classifies the witness
stack shape, deterministic and total, nonstandard on unrecognized shapes
(§4.2). -/
def Witness.getInputType (w : Witness) : ScriptType :=
  match w.items with
  | [] => .nonstandard
  | [_, _] => .witnesspubkeyhash
  | _ => .witnessscripthash

/-- Modelled from the spec: `witness.getInputAddress()` derives the address
determined by the witness stack when inferable (§4.2). -/
def Witness.getInputAddress (w : Witness) : Option Address :=
  w.items.getLast?.map (fun it => ⟨it⟩)

/-! ## Coin

Modelled from the spec: `Coin` supplies `getType()`, `getAddress()`,
`.script` and `getJSON(network, detailed)` (§3, §6); its type and address
are those of its output script, and its `getType` result is the lowercased
canonical tag name (matching the authoritative-resolution branch of
`getType`). -/

structure Coin where
  script : Script
  value : Nat
deriving DecidableEq, Repr

/-- Modelled from the spec: `coin.getType()` classifies the Coin's output
script and renders the canonical lowercase tag name. -/
def Coin.getType (c : Coin) : String :=
  (scriptTypesByVal c.script.getType).toLower

/-- Modelled from the spec: `coin.getAddress()` — the address committed by
the Coin's output script, when its pattern determines one. -/
def Coin.getAddress (c : Coin) : Option Address :=
  if c.script.isScripthash || c.script.isWitnessScripthash then
    some ⟨c.script.code⟩
  else none

/-! ## Input

Translated from `input.js`: `Input` composes an `Outpoint`, a `Script`, a
32-bit `sequence` (default `0xffffffff`) and a `Witness` (default empty). -/

structure Input where
  prevout : Outpoint
  script : Script
  sequence : Nat
  witness : Witness
deriving DecidableEq, Repr

/-- `isCoinbase()`: the outpoint is null (`input.js` line 223). -/
def Input.isCoinbase (i : Input) : Bool :=
  i.prevout.isNull

/-- `isFinal()`: nSequence equals the 32-bit maximum (`input.js` line 205). -/
def Input.isFinal (i : Input) : Bool :=
  i.sequence == 0xffffffff

/-- `isRBF()`: nSequence is below `0xfffffffe` (`input.js` line 214). -/
def Input.isRBF (i : Input) : Bool :=
  decide (i.sequence < 0xfffffffe)

/-- `getType(coin?)` (`input.js` lines 89–104): coinbase short-circuit,
else the Coin's authoritative type, else the witness-preferred guess mapped
through the lowercased canonical name table. -/
def Input.getType (i : Input) (coin : Option Coin) : String :=
  if i.isCoinbase then "coinbase"
  else
    match coin with
    | some c => c.getType
    | none =>
      let t := if i.witness.items.length > 0 then i.witness.getInputType
               else i.script.getInputType
      (scriptTypesByVal t).toLower

/-- `getRedeem(coin?)` (`input.js` lines 113–142): coinbase yields nothing;
without a Coin, witness-side then script-side script-hash unwrap; with a
Coin, the two-stage unwrap starting from the Coin's output script, the
second stage overwriting the recorded redeem. -/
def Input.getRedeem (i : Input) (coin : Option Coin) : Option Script :=
  if i.isCoinbase then none
  else
    match coin with
    | none =>
      if i.witness.isScripthashInput then i.witness.getRedeem
      else if i.script.isScripthashInput then i.script.getRedeem
      else none
    | some c =>
      let prev0 := c.script
      let pr : Option Script × Option Script :=
        if prev0.isScripthash then (i.script.getRedeem, i.script.getRedeem)
        else (some prev0, none)
      match pr.1 with
      | some p => if p.isWitnessScripthash then i.witness.getRedeem else pr.2
      | none => pr.2

/-- `getSubtype(coin?)` (`input.js` lines 150–164): the lowercased type of
the resolved redeem script, nothing when coinbase or no redeem resolves. -/
def Input.getSubtype (i : Input) (coin : Option Coin) : Option String :=
  if i.isCoinbase then none
  else
    match i.getRedeem coin with
    | none => none
    | some r => some (scriptTypesByVal r.getType).toLower

/-- `getAddress(coin?)` (`input.js` lines 174–185): coinbase yields
nothing; a Coin is authoritative; else witness-preferred guessing. -/
def Input.getAddress (i : Input) (coin : Option Coin) : Option Address :=
  if i.isCoinbase then none
  else
    match coin with
    | some c => c.getAddress
    | none =>
      if i.witness.items.length > 0 then i.witness.getInputAddress
      else i.script.getInputAddress

/-- `getSize()` (`input.js` line 328): 40 fixed bytes plus the script's
variable size. -/
def Input.getSize (i : Input) : Nat :=
  40 + i.script.getVarSize

/-- `toWriter(bw)` (`input.js` lines 348–353): append the outpoint, the
var-bytes script, and the 4-byte little-endian sequence to the writer's
accumulated bytes. -/
def Input.toWriter (i : Input) (bw : List Nat) : List Nat :=
  bw ++ i.prevout.toWriterBytes ++ writeVarBytes i.script.toRaw
     ++ leBytes 4 i.sequence

/-- `toRaw()` (`input.js` lines 338–341): render via a fresh writer. -/
def Input.toRaw (i : Input) : List Nat :=
  i.toWriter []

/-- `fromReader(br)` (`input.js` lines 361–366): read the outpoint, the
var-bytes script and the 4-byte sequence in that fixed order; the witness
is left at its empty default.  Truncation fails with no partial result. -/
def Input.fromReader (bs : List Nat) : Option (Input × List Nat) :=
  match Outpoint.fromReader bs with
  | some (p, r1) =>
    match readVarBytes r1 with
    | some (sc, r2) =>
      match readBytes 4 r2 with
      | some (sq, r3) => some (⟨p, Script.fromRaw sc, decodeLE sq, ⟨[]⟩⟩, r3)
      | none => none
    | none => none
  | none => none

/-- `Input.fromRaw(data)` (`input.js` lines 373–398): decode a buffer from
its start. -/
def Input.fromRaw (bs : List Nat) : Option Input :=
  (Input.fromReader bs).map (fun p => p.1)

/-! ## JSON model

Modelled from the spec (§4.5): the nested codecs render hash fields "in
reversed byte order relative to the internal representation"; the script
and witness JSON forms carry their raw bytes; absent fields are `none`.
A number-position JSON value is either an integer or some non-numeric
value. -/

/-- A JSON value standing where a number is expected. -/
inductive JsonNum where
  | num (n : Int)
  | notNum
deriving DecidableEq, Repr

/-- Modelled from the spec: a well-formed unsigned (32-bit) integer in a
JSON number position — what `fromJSON` requires of `sequence` (§4.5, §7). -/
def isUInt32J : Option JsonNum → Bool
  | some (JsonNum.num n) => decide (0 ≤ n ∧ n < 4294967296)
  | _ => false

/-- The JSON form of an outpoint: reversed-order hash bytes and the index. -/
structure OutpointJSON where
  hash : List Nat
  index : Nat
deriving DecidableEq, Repr

/-- Modelled from the spec: `outpoint.toJSON()` renders the hash reversed
(§4.5 legacy display convention) alongside the index. -/
def Outpoint.toJSON (o : Outpoint) : OutpointJSON :=
  ⟨o.hash.reverse, o.index⟩

/-- Modelled from the spec: `outpoint.fromJSON` validates the 32-byte hash
and 32-bit index and un-reverses the hash; malformed input fails. -/
def Outpoint.fromJSON (j : OutpointJSON) : Option Outpoint :=
  if j.hash.length = 32 ∧ j.hash.all (fun b => b < 256) ∧ j.index < 4294967296
  then some ⟨j.hash.reverse, j.index⟩
  else none

/-- Modelled from the spec: `script.toJSON()` carries the raw script
bytes. -/
def Script.toJSON (s : Script) : List Nat :=
  s.code

/-- Modelled from the spec: `script.fromJSON` validates the byte string;
malformed input fails. -/
def Script.fromJSON (j : List Nat) : Option Script :=
  if j.all (fun b => b < 256) then some ⟨j⟩ else none

/-- Modelled from the spec: `witness.toJSON()` carries the stack items'
bytes. -/
def Witness.toJSON (w : Witness) : List (List Nat) :=
  w.items

/-- Modelled from the spec: `witness.fromJSON` validates each item;
malformed input fails. -/
def Witness.fromJSON (j : List (List Nat)) : Option Witness :=
  if j.all (fun it => it.all (fun b => b < 256)) then some ⟨j⟩ else none

/-- Modelled from the spec: the detailed JSON form a Coin renders via
`coin.getJSON(network, true)` (§4.5, §6). -/
structure CoinJSON where
  script : List Nat
  address : Option String
  detailed : Bool
deriving DecidableEq, Repr

/-- Modelled from the spec: `coin.getJSON(network, detailed)`. -/
def Coin.getJSON (c : Coin) (n : Network) (detailed : Bool) : CoinJSON :=
  ⟨c.script.code, c.getAddress.map (fun a => a.toBase58 n), detailed⟩

/-- The JSON object shape produced/consumed for an Input:
`{ prevout, script, witness, sequence, address?, coin? }` (§6); `none`
models an absent (`undefined`) field. -/
structure InputJSON where
  prevout : Option OutpointJSON
  script : Option (List Nat)
  witness : Option (List (List Nat))
  sequence : Option JsonNum
  address : Option String
  coin : Option CoinJSON
deriving DecidableEq, Repr

/-- `getJSON(network, coin)` (`input.js` lines 276–295): resolve the
network, compute the base58 address only when no Coin is supplied, embed
the Coin's detailed JSON when one is. -/
def Input.getJSON (i : Input) (network : Option Network) (coin : Option Coin) :
    InputJSON :=
  let n := Network.get network
  let address :=
    match coin with
    | some _ => none
    | none => (i.getAddress none).map (fun a => a.toBase58 n)
  ⟨some i.prevout.toJSON, some i.script.toJSON, some i.witness.toJSON,
   some (JsonNum.num (i.sequence : Int)), address,
   coin.map (fun c => c.getJSON n true)⟩

/-- `toJSON(network, coin)` (`input.js` lines 262–264): both parameters are
discarded and `getJSON()` is called with no arguments. -/
def Input.toJSON (i : Input) (_network : Option Network) (_coin : Option Coin) :
    InputJSON :=
  i.getJSON none none

/-- `fromJSON(json)` (`input.js` lines 303–311): require a well-formed
unsigned-integer `sequence` and well-formed `prevout`/`script`/`witness`
fields; any failure yields no Input at all. -/
def Input.fromJSON (j : InputJSON) : Option Input :=
  match j.sequence, j.prevout.bind Outpoint.fromJSON,
        j.script.bind Script.fromJSON, j.witness.bind Witness.fromJSON with
  | some (JsonNum.num n), some p, some s, some w =>
    if 0 ≤ n ∧ n < 4294967296 then some ⟨p, s, n.toNat, w⟩ else none
  | _, _, _, _ => none

/-- Well-formedness of an Input's field contents: a 32-byte hash, byte
values below 256, 32-bit index and sequence, and a script short enough for
its length prefix (the invariants §3 states for constructed Inputs). -/
def Input.wf (i : Input) : Bool :=
  i.prevout.hash.length == 32
  && i.prevout.hash.all (fun b => b < 256)
  && decide (i.prevout.index < 4294967296)
  && i.script.code.all (fun b => b < 256)
  && decide (i.script.code.length < 4294967296)
  && decide (i.sequence < 4294967296)
  && i.witness.items.all (fun it => it.all (fun b => b < 256))

/-! ## Codec round-trip lemmas -/

/-- A `k`-byte little-endian rendering has exactly `k` bytes. -/
theorem length_leBytes (k : Nat) : ∀ n, (leBytes k n).length = k := by
  induction k with
  | zero => intro n; rfl
  | succ k ih => intro n; simp [leBytes, ih]

/-- Decoding a `k`-byte little-endian rendering recovers the value modulo
`256 ^ k`. -/
theorem decodeLE_leBytes (k : Nat) : ∀ n, decodeLE (leBytes k n) = n % 256 ^ k := by
  induction k with
  | zero => intro n; simp [leBytes, decodeLE, Nat.mod_one]
  | succ k ih =>
    intro n
    simp only [leBytes, decodeLE, ih (n / 256)]
    rw [pow_succ, Nat.mul_comm (256 ^ k) 256, Nat.mod_mul]

/-- Decoding a `k`-byte little-endian rendering of a value below `256 ^ k`
recovers the value exactly. -/
theorem decodeLE_leBytes_of_lt {k n : Nat} (h : n < 256 ^ k) :
    decodeLE (leBytes k n) = n := by
  rw [decodeLE_leBytes, Nat.mod_eq_of_lt h]

/-- Reading exactly the length of a prefix consumes that prefix and leaves
the tail untouched. -/
theorem readBytes_append {n : Nat} (l r : List Nat) (h : l.length = n) :
    readBytes n (l ++ r) = some (l, r) := by
  subst h
  simp [readBytes, List.take_left, List.drop_left]

/-- The variable-width integer encoding has exactly `varIntSize n` bytes. -/
theorem length_writeVarInt (n : Nat) :
    (writeVarInt n).length = varIntSize n := by
  unfold writeVarInt varIntSize
  split
  · rfl
  · split
    · simp [length_leBytes]
    · split
      · simp [length_leBytes]
      · simp [length_leBytes]

/-- Reading back a written variable-width integer below `2 ^ 64` yields the
value and the untouched tail. -/
theorem readVarInt_writeVarInt {n : Nat} (h : n < 18446744073709551616)
    (r : List Nat) : readVarInt (writeVarInt n ++ r) = some (n, r) := by
  unfold writeVarInt
  split
  · rename_i h1
    simp [readVarInt, h1]
  · rename_i h1
    split
    · rename_i h2
      have hrb := readBytes_append (leBytes 2 n) r (length_leBytes 2 n)
      simp [readVarInt, hrb, decodeLE_leBytes_of_lt (show n < 256 ^ 2 by omega)]
    · rename_i h2
      split
      · rename_i h3
        have hrb := readBytes_append (leBytes 4 n) r (length_leBytes 4 n)
        simp [readVarInt, hrb, decodeLE_leBytes_of_lt (show n < 256 ^ 4 by omega)]
      · rename_i h3
        have hrb := readBytes_append (leBytes 8 n) r (length_leBytes 8 n)
        simp [readVarInt, hrb, decodeLE_leBytes_of_lt (show n < 256 ^ 8 by omega)]

/-- Reading back written var-bytes yields the byte string and the untouched
tail. -/
theorem readVarBytes_writeVarBytes {b : List Nat}
    (h : b.length < 18446744073709551616) (r : List Nat) :
    readVarBytes (writeVarBytes b ++ r) = some (b, r) := by
  unfold readVarBytes writeVarBytes
  rw [List.append_assoc, readVarInt_writeVarInt h]
  exact readBytes_append b r rfl

/-! ## Sample data used by the witness theorems -/

/-- A well-formed non-coinbase Input with a non-empty witness. -/
def sampleInput : Input :=
  ⟨⟨List.replicate 32 5, 7⟩, ⟨[1, 2, 3]⟩, 9, ⟨[[8, 8]]⟩⟩

/-- A coinbase Input (null prevout) with non-trivial script and witness. -/
def sampleCoinbase : Input :=
  ⟨⟨List.replicate 32 0, 0xffffffff⟩, ⟨[9]⟩, 5, ⟨[[2]]⟩⟩

/-- A script-hash output script (`OP_HASH160 <20 bytes> OP_EQUAL`). -/
def sampleP2SH : Script :=
  ⟨0xa9 :: 0x14 :: (List.replicate 20 0x11 ++ [0x87])⟩

/-- A witness-script-hash script (`OP_0 <32 bytes>`). -/
def sampleWSH : Script :=
  ⟨0x00 :: 0x20 :: List.replicate 32 0x22⟩

/-- A 2-of-3-multisig-shaped redeem script. -/
def sampleMultisig : Script :=
  ⟨[0x52, 0x53, 0xae]⟩

/-- A Coin whose output script is the script-hash pattern. -/
def sampleCoin : Coin :=
  ⟨sampleP2SH, 50⟩

/-- An Input spending `sampleCoin`: its script pushes the
witness-script-hash script, its witness ends with the multisig redeem. -/
def sampleNested : Input :=
  ⟨⟨List.replicate 32 1, 0⟩, ⟨0x22 :: sampleWSH.code⟩, 0xffffffff,
   ⟨[[], sampleMultisig.code]⟩⟩

/-! ## Claim theorems -/

/-- **C3.** For every Input whose prevout is null, and for any Coin
argument: `isCoinbase` agrees with `prevout.isNull`, `getType` returns the
literal tag `"coinbase"`, and `getRedeem`, `getSubtype` and `getAddress`
each return `null`, regardless of script, witness and Coin content. -/
theorem coinbase_short_circuits (i : Input) (c : Option Coin)
    (h : i.isCoinbase = true) :
    i.isCoinbase = i.prevout.isNull
      ∧ i.getType c = "coinbase"
      ∧ i.getRedeem c = none
      ∧ i.getSubtype c = none
      ∧ i.getAddress c = none := by
  refine ⟨rfl, ?_, ?_, ?_, ?_⟩ <;>
    simp [Input.getType, Input.getRedeem, Input.getSubtype, Input.getAddress, h]

theorem coinbase_short_circuits_witness :
    sampleCoinbase.isCoinbase = true
      ∧ (sampleCoinbase.isCoinbase = sampleCoinbase.prevout.isNull
          ∧ sampleCoinbase.getType (some sampleCoin) = "coinbase"
          ∧ sampleCoinbase.getRedeem (some sampleCoin) = none
          ∧ sampleCoinbase.getSubtype (some sampleCoin) = none
          ∧ sampleCoinbase.getAddress (some sampleCoin) = none) :=
  ⟨by decide, coinbase_short_circuits sampleCoinbase (some sampleCoin) (by decide)⟩

/-- **C4.** For every Input, `isFinal()` holds exactly when the sequence is
`0xffffffff`, `isRBF()` holds exactly when the sequence is below
`0xfffffffe`, and an Input whose sequence is exactly `0xfffffffe` is
neither final nor RBF-eligible. -/
theorem sequence_flag_boundaries (i : Input) :
    (i.isFinal = true ↔ i.sequence = 0xffffffff)
      ∧ (i.isRBF = true ↔ i.sequence < 0xfffffffe)
      ∧ (∀ p s w, (Input.mk p s 0xfffffffe w).isFinal = false
          ∧ (Input.mk p s 0xfffffffe w).isRBF = false) := by
  refine ⟨?_, ?_, ?_⟩
  · simp [Input.isFinal]
  · simp [Input.isRBF]
  · intro p s w
    constructor
    · simp only [Input.isFinal, beq_eq_false_iff_ne, ne_eq]
      omega
    · simp only [Input.isRBF, decide_eq_false_iff_not]
      omega

/-- **C5.** For every non-coinbase Input queried without a Coin: `getType`
uses the witness interpretation when the witness item stack is non-empty
and the script interpretation otherwise, mapped through the lowercased
canonical name table; `getAddress` likewise prefers the witness-derived
address, falling back to the script-derived one. -/
theorem no_coin_guessing_dispatch (i : Input) (h : i.isCoinbase = false) :
    i.getType none
        = (scriptTypesByVal (if i.witness.items.length > 0
            then i.witness.getInputType else i.script.getInputType)).toLower
      ∧ i.getAddress none
        = (if i.witness.items.length > 0
            then i.witness.getInputAddress else i.script.getInputAddress) := by
  constructor
  · simp only [Input.getType, h, Bool.false_eq_true, if_false]
  · simp only [Input.getAddress, h, Bool.false_eq_true, if_false]

theorem no_coin_guessing_dispatch_witness :
    sampleInput.isCoinbase = false
      ∧ (sampleInput.getType none
          = (scriptTypesByVal (if sampleInput.witness.items.length > 0
              then sampleInput.witness.getInputType
              else sampleInput.script.getInputType)).toLower
        ∧ sampleInput.getAddress none
          = (if sampleInput.witness.items.length > 0
              then sampleInput.witness.getInputAddress
              else sampleInput.script.getInputAddress)) :=
  ⟨by decide, no_coin_guessing_dispatch sampleInput (by decide)⟩

/-- **C2.** For every non-coinbase Input supplied with a Coin whose output
script is a script-hash, when the Input's script-side unwrap yields a
redeem script and the Input's witness-side unwrap yields one too: if the
first-level redeem is a witness-script-hash, `getRedeem` returns the
deeper, witness-resolved redeem script, not the intermediate one; and if
the second unwrap does not apply, the first-level redeem is returned. -/
theorem nested_redeem_unwrap (i : Input) (c : Coin) (r1 r2 : Script)
    (hcb : i.isCoinbase = false)
    (hsh : c.script.isScripthash = true)
    (hr1 : i.script.getRedeem = some r1)
    (hr2 : i.witness.getRedeem = some r2) :
    (r1.isWitnessScripthash = true → i.getRedeem (some c) = some r2)
      ∧ (r1.isWitnessScripthash = false → i.getRedeem (some c) = some r1) := by
  constructor
  · intro hwsh
    simp [Input.getRedeem, hcb, hsh, hr1, hwsh, hr2]
  · intro hwsh
    simp [Input.getRedeem, hcb, hsh, hr1, hwsh]

theorem nested_redeem_unwrap_witness :
    sampleNested.isCoinbase = false
      ∧ sampleCoin.script.isScripthash = true
      ∧ sampleNested.script.getRedeem = some sampleWSH
      ∧ sampleNested.witness.getRedeem = some sampleMultisig
      ∧ (sampleWSH.isWitnessScripthash = true
          → sampleNested.getRedeem (some sampleCoin) = some sampleMultisig)
      ∧ (sampleWSH.isWitnessScripthash = false
          → sampleNested.getRedeem (some sampleCoin) = some sampleWSH) := by
  refine ⟨by decide, by decide, by decide, by decide, ?_, ?_⟩
  · exact (nested_redeem_unwrap sampleNested sampleCoin sampleWSH sampleMultisig
      (by decide) (by decide) (by decide) (by decide)).1
  · exact (nested_redeem_unwrap sampleNested sampleCoin sampleWSH sampleMultisig
      (by decide) (by decide) (by decide) (by decide)).2

/-- **C9.** For every Input, network argument and Coin: the JSON produced
by `getJSON` carries an address field only when no Coin is supplied (the
base58 rendering of `getAddress()` for the resolved network, absent when no
address resolves), and carries the Coin's detailed JSON form exactly when a
Coin is supplied. -/
theorem getJSON_address_and_coin_fields (i : Input) (n : Option Network)
    (c : Coin) :
    ((i.getJSON n (some c)).address = none
        ∧ (i.getJSON n (some c)).coin = some (c.getJSON (Network.get n) true))
      ∧ ((i.getJSON n none).address
            = (i.getAddress none).map (fun a => a.toBase58 (Network.get n))
        ∧ (i.getJSON n none).coin = none) := by
  refine ⟨⟨rfl, rfl⟩, ⟨rfl, rfl⟩⟩

/-- **C10.** For every Input, network argument and Coin argument,
`toJSON(network, coin)` equals `getJSON()` with no arguments: both
parameters are discarded, so the output never carries a coin field and any
address in it is rendered for the default network. -/
theorem toJSON_discards_arguments (i : Input) (n : Option Network)
    (c : Option Coin) :
    i.toJSON n c = i.getJSON none none
      ∧ (i.toJSON n c).coin = none
      ∧ (i.toJSON n c).address
          = (i.getAddress none).map (fun a => a.toBase58 (Network.get none)) := by
  refine ⟨rfl, rfl, rfl⟩

/-- Splitting the `wf` conjunction into its component facts. -/
theorem Input.wf_spec (i : Input) (h : i.wf = true) :
    i.prevout.hash.length = 32
      ∧ (∀ b ∈ i.prevout.hash, b < 256)
      ∧ i.prevout.index < 4294967296
      ∧ (∀ b ∈ i.script.code, b < 256)
      ∧ i.script.code.length < 4294967296
      ∧ i.sequence < 4294967296
      ∧ (∀ it ∈ i.witness.items, ∀ b ∈ it, b < 256) := by
  simp only [Input.wf, Bool.and_eq_true, beq_iff_eq, List.all_eq_true,
    decide_eq_true_eq] at h
  tauto

/-- **C1.** For every well-formed Input with a non-coinbase prevout,
arbitrary script bytes and arbitrary 32-bit sequence: the binary encoding
writes the 32-byte outpoint hash, the 4-byte little-endian index, the
var-length-prefixed script and the 4-byte little-endian sequence in that
fixed order; the witness is not part of the layout (any witness encodes
identically); and decoding the encoding restores the prevout, script and
sequence fields. -/
theorem binary_roundtrip (i : Input) (hwf : i.wf = true)
    (_hcb : i.isCoinbase = false) :
    i.toRaw = i.prevout.hash ++ leBytes 4 i.prevout.index
        ++ (writeVarInt i.script.code.length ++ i.script.code)
        ++ leBytes 4 i.sequence
      ∧ (∀ w, (Input.mk i.prevout i.script i.sequence w).toRaw = i.toRaw)
      ∧ ∃ j, Input.fromRaw i.toRaw = some j
          ∧ j.prevout = i.prevout ∧ j.script = i.script
          ∧ j.sequence = i.sequence := by
  obtain ⟨h32, hhb, hidx, hsb, hsl, hsq, hwb⟩ := Input.wf_spec i hwf
  refine ⟨?_, fun w => rfl, ?_⟩
  · simp [Input.toRaw, Input.toWriter, Outpoint.toWriterBytes, writeVarBytes,
      Script.toRaw, List.append_assoc]
  · have e1 : i.toRaw
        = i.prevout.hash ++ (leBytes 4 i.prevout.index
            ++ (writeVarBytes i.script.code ++ leBytes 4 i.sequence)) := by
      simp [Input.toRaw, Input.toWriter, Outpoint.toWriterBytes, Script.toRaw,
        List.append_assoc]
    have r1 := readBytes_append i.prevout.hash
      (leBytes 4 i.prevout.index ++ (writeVarBytes i.script.code
        ++ leBytes 4 i.sequence)) h32
    have r2 := readBytes_append (leBytes 4 i.prevout.index)
      (writeVarBytes i.script.code ++ leBytes 4 i.sequence)
      (length_leBytes 4 i.prevout.index)
    have r3 := readVarBytes_writeVarBytes
      (show i.script.code.length < 18446744073709551616 by omega)
      (leBytes 4 i.sequence)
    have r4 : readBytes 4 (leBytes 4 i.sequence)
        = some (leBytes 4 i.sequence, []) := by
      simpa using readBytes_append (leBytes 4 i.sequence) []
        (length_leBytes 4 i.sequence)
    refine ⟨⟨i.prevout, i.script, i.sequence, ⟨[]⟩⟩, ?_, rfl, rfl, rfl⟩
    simp only [Input.fromRaw, Input.fromReader, Outpoint.fromReader, e1, r1,
      r2, r3, r4]
    simp [decodeLE_leBytes_of_lt (show i.prevout.index < 256 ^ 4 by omega),
      decodeLE_leBytes_of_lt (show i.sequence < 256 ^ 4 by omega),
      Script.fromRaw]

theorem binary_roundtrip_witness :
    sampleInput.wf = true
      ∧ sampleInput.isCoinbase = false
      ∧ (sampleInput.toRaw = sampleInput.prevout.hash
            ++ leBytes 4 sampleInput.prevout.index
            ++ (writeVarInt sampleInput.script.code.length
                ++ sampleInput.script.code)
            ++ leBytes 4 sampleInput.sequence
        ∧ (∀ w, (Input.mk sampleInput.prevout sampleInput.script
              sampleInput.sequence w).toRaw = sampleInput.toRaw)
        ∧ ∃ j, Input.fromRaw sampleInput.toRaw = some j
            ∧ j.prevout = sampleInput.prevout
            ∧ j.script = sampleInput.script
            ∧ j.sequence = sampleInput.sequence) :=
  ⟨by decide, by decide, binary_roundtrip sampleInput (by decide) (by decide)⟩

/-- **C6.** For every Input with a 32-byte outpoint hash, `getSize()`
equals 40 plus the script's variable-size length prefix and payload, and
this equals the exact byte length of the buffer produced by `toRaw()`. -/
theorem getSize_matches_encoder (i : Input) (h : i.prevout.hash.length = 32) :
    i.getSize = 40 + (varIntSize i.script.code.length + i.script.code.length)
      ∧ i.getSize = i.toRaw.length := by
  refine ⟨rfl, ?_⟩
  simp [Input.getSize, Script.getVarSize, Input.toRaw, Input.toWriter,
    Outpoint.toWriterBytes, writeVarBytes, Script.toRaw, length_leBytes,
    length_writeVarInt, h]
  omega

theorem getSize_matches_encoder_witness :
    sampleInput.prevout.hash.length = 32
      ∧ (sampleInput.getSize
          = 40 + (varIntSize sampleInput.script.code.length
              + sampleInput.script.code.length)
        ∧ sampleInput.getSize = sampleInput.toRaw.length) :=
  ⟨by decide, getSize_matches_encoder sampleInput (by decide)⟩

/-- **C7.** For every well-formed Input, decoding the JSON form via
`fromJSON` restores the prevout, script, witness and sequence fields
exactly (the address and coin fields are derived outputs, not Input
fields). -/
theorem json_roundtrip (i : Input) (hwf : i.wf = true) :
    ∃ j, Input.fromJSON (i.toJSON none none) = some j
      ∧ j.prevout = i.prevout ∧ j.script = i.script
      ∧ j.witness = i.witness ∧ j.sequence = i.sequence := by
  obtain ⟨h32, hhb, hidx, hsb, hsl, hsq, hwb⟩ := Input.wf_spec i hwf
  have hp : Outpoint.fromJSON i.prevout.toJSON = some i.prevout := by
    simp only [Outpoint.toJSON, Outpoint.fromJSON]
    rw [if_pos]
    · simp
    · refine ⟨by simpa using h32, ?_, hidx⟩
      simpa [List.all_eq_true] using fun b hb => hhb b hb
  have hs : Script.fromJSON i.script.toJSON = some i.script := by
    simp only [Script.toJSON, Script.fromJSON]
    rw [if_pos]
    simpa [List.all_eq_true] using fun b hb => hsb b hb
  have hw : Witness.fromJSON i.witness.toJSON = some i.witness := by
    simp only [Witness.toJSON, Witness.fromJSON]
    rw [if_pos]
    simpa [List.all_eq_true] using fun it hit b hb => hwb it hit b hb
  refine ⟨⟨i.prevout, i.script, i.sequence, i.witness⟩, ?_, rfl, rfl, rfl, rfl⟩
  simp only [Input.toJSON, Input.getJSON, Input.fromJSON, Option.some_bind,
    hp, hs, hw]
  rw [if_pos]
  · simp
  · constructor
    · exact Int.natCast_nonneg i.sequence
    · omega

theorem json_roundtrip_witness :
    sampleInput.wf = true
      ∧ ∃ j, Input.fromJSON (sampleInput.toJSON none none) = some j
          ∧ j.prevout = sampleInput.prevout
          ∧ j.script = sampleInput.script
          ∧ j.witness = sampleInput.witness
          ∧ j.sequence = sampleInput.sequence :=
  ⟨by decide, json_roundtrip sampleInput (by decide)⟩

/-- **C8.** For every JSON object given to `fromJSON`, the call fails with
no Input returned whenever the sequence field is not a well-formed unsigned
integer, or the prevout, script or witness field is absent or malformed;
malformed input is never silently defaulted. -/
theorem fromJSON_rejects_malformed (j : InputJSON)
    (h : isUInt32J j.sequence = false
        ∨ j.prevout.bind Outpoint.fromJSON = none
        ∨ j.script.bind Script.fromJSON = none
        ∨ j.witness.bind Witness.fromJSON = none) :
    Input.fromJSON j = none := by
  unfold Input.fromJSON
  split
  · rename_i n p s w hseq hp hs hw
    rcases h with h | h | h | h
    · rw [hseq] at h
      simp only [isUInt32J, decide_eq_false_iff_not] at h
      exact if_neg h
    · rw [hp] at h; cases h
    · rw [hs] at h; cases h
    · rw [hw] at h; cases h
  · rfl

theorem fromJSON_rejects_malformed_witness :
    (isUInt32J (InputJSON.mk (some ⟨List.replicate 32 0, 0⟩) (some [])
        (some []) (some JsonNum.notNum) none none).sequence = false
      ∨ (InputJSON.mk (some ⟨List.replicate 32 0, 0⟩) (some []) (some [])
          (some JsonNum.notNum) none none).prevout.bind Outpoint.fromJSON = none
      ∨ (InputJSON.mk (some ⟨List.replicate 32 0, 0⟩) (some []) (some [])
          (some JsonNum.notNum) none none).script.bind Script.fromJSON = none
      ∨ (InputJSON.mk (some ⟨List.replicate 32 0, 0⟩) (some []) (some [])
          (some JsonNum.notNum) none none).witness.bind Witness.fromJSON = none)
      ∧ Input.fromJSON (InputJSON.mk (some ⟨List.replicate 32 0, 0⟩) (some [])
          (some []) (some JsonNum.notNum) none none) = none :=
  ⟨Or.inl (by decide),
   fromJSON_rejects_malformed _ (Or.inl (by decide))⟩
